import Mathlib

/-!
Verification development for the stub-generation tool in `_generate_stub.py`.

The development shallowly embeds the tool's three pieces:

* `list_modules` (batch resolution): computing the dotted package identity,
  appending the parent of the package path to the import search path,
  walking the package directory tree with `os.walk`, deriving dotted module
  names from compiled-artifact (`.so`) filenames, importing each candidate,
  and returning `(module, qualified name, containing directory)` triples;
* `get_module` (single-mode resolution) and its guarded search-path insertion;
* `stub` (the emitter front end): the fixed `CLIArgs` bundle handed to the
  external stub generator, and the output directories chosen by the
  module-level driver code.

Filesystems are modelled as finite rose trees of named directories and file
names (`Dir`).  Python strings are modelled as `String` (with character-level
helpers mirroring `str.split`, `os.path.splitext`, `str.rfind` and
`pathlib.PurePath.stem` exactly).  Dynamic imports are modelled by an oracle
`o : String → String → Bool` receiving the same two arguments the code passes
to `importlib.import_module` (the possibly-relative dotted name and the
anchor package); a successful package-level import is additionally required
to resolve to an on-disk directory (`navigate`), whose location becomes the
walk root, mirroring `os.path.dirname(mod.__file__)` for a package.
Exceptions are modelled with `Except`: the first failing import aborts with
`Except.error` carrying the failing dotted name.
-/

/-- Character-level model of Python `str.split(sep)` (CPython semantics:
splitting the empty string yields one empty field, adjacent separators give
empty fields). -/
def pySplit (sep : Char) : List Char → List (List Char)
  | [] => [[]]
  | c :: rest =>
    let r := pySplit sep rest
    if c = sep then [] :: r
    else (c :: r.headD []) :: r.tail

/-- Model of `file.split('.')[0]` from line 27 of `_generate_stub.py`: the
module basename derived from a compiled-artifact filename. -/
def soBase (f : String) : String :=
  String.mk ((pySplit '.' f.data).headD [])

/-- The substring of a filename strictly before its first `.` — the
specification's description of the derived module basename (used to compare
against the implementation's `soBase`). -/
def beforeFirstDot (s : String) : String :=
  String.mk (s.data.takeWhile (fun c => !(c == '.')))

/-- Model of Python `file.endswith(".so")`: the character list ends with
`.so`. -/
def soSuffix (f : String) : Bool :=
  List.isSuffixOf ".so".data f.data

/-- Index of the last occurrence of `c`, mirroring Python `str.rfind`
(`none` plays the role of `-1`). -/
def rfindIdx (c : Char) : List Char → Option Nat
  | [] => none
  | x :: xs =>
    match rfindIdx c xs with
    | some i => some (i + 1)
    | none => if x = c then some 0 else none

/-- The index where the final path component starts: one past the last
`/`, or `0` when there is none (CPython's `filenameIndex = sepIndex + 1`
with `sepIndex = -1` absent a separator). -/
def sepBase (cs : List Char) : Nat :=
  match rfindIdx '/' cs with
  | none => 0
  | some si => si + 1

/-- First component of `os.path.splitext` (CPython `genericpath._splitext`
with `sep = '/'`, no altsep, `extsep = '.'`): the extension starting at the
last dot is stripped iff that dot lies after the last separator and the last
path component is not entirely dots up to it. -/
def splitextFstL (cs : List Char) : List Char :=
  match rfindIdx '.' cs with
  | none => cs
  | some di =>
    if sepBase cs ≤ di then
      if ((cs.drop (sepBase cs)).take (di - sepBase cs)).any (fun c => !(c == '.')) then
        cs.take di
      else cs
    else cs

/-- Join character lists with a single separator character (model of
`sep.join` and of path concatenation with `/`). -/
def joinSepL (sep : Char) : List (List Char) → List Char
  | [] => []
  | [x] => x
  | x :: xs => x ++ sep :: joinSepL sep xs

/-- Model of `.replace(os.path.sep, ".")`: every `/` becomes `.`. -/
def dotRepL (cs : List Char) : List Char :=
  cs.map (fun c => if c = '/' then '.' else c)

/-- Model of `os.path.relpath(os.path.join(root, base), walkRoot)` rendered
as a string, where `root = walkRoot/relDirs`: the relative segments joined
with `/`; an empty `base` (from `os.path.join(root, '')`) contributes no
segment, and the empty relative path renders as `"."`. -/
def relPathL (relDirs : List (List Char)) (base : List Char) : List Char :=
  let segs := relDirs ++ (if base.isEmpty then [] else [base])
  if segs.isEmpty then ['.'] else joinSepL '/' segs

/-- Character-level assembly of the import-relative dotted module name from
lines 26-30 of `_generate_stub.py`: basename before the first dot, relative
path from the walk root, `splitext`, separators to dots, then the
`package_name` prefix (`f".{m}"` when the package identity is the bare dot,
`f"{package_name}.{m}"` otherwise). -/
def relNameL (pkg : List Char) (relDirs : List (List Char)) (fname : List Char) : List Char :=
  if pkg = ['.'] then
    '.' :: dotRepL (splitextFstL (relPathL relDirs ((pySplit '.' fname).headD [])))
  else
    pkg ++ '.' :: dotRepL (splitextFstL (relPathL relDirs ((pySplit '.' fname).headD [])))

/-- String-level wrapper of `relNameL`. -/
def relName (pkg : String) (relDirs : List String) (fname : String) : String :=
  String.mk (relNameL pkg.data (relDirs.map (fun s => s.data)) fname.data)

/-- Model of `pathlib.PurePath.stem` on a path component: the component
without its last suffix; a suffix exists iff the last dot sits at an index
`i` with `0 < i < len - 1`. -/
def pathStem (s : String) : String :=
  match rfindIdx '.' s.data with
  | none => s
  | some i =>
    if 0 < i ∧ i < s.data.length - 1 then String.mk (s.data.take i) else s

/-- Line 9 of `_generate_stub.py`: the relative dotted package identity,
`'.' + '.'.join(str(module_path).split('/'))` when a module path is given
and the bare `"."` otherwise.  A module path is modelled by its list of
path segments. -/
def packageNameOf : Option (List String) → String
  | none => "."
  | some segs => String.mk ('.' :: joinSepL '.' (segs.map (fun s => s.data)))

/-- A directory tree: named subdirectories (in `os.listdir` order) and the
plain file names it contains. -/
inductive Dir where
  | mk (subdirs : List (String × Dir)) (files : List String)

/-- Subdirectory names of a directory. -/
def Dir.subNames : Dir → List String
  | .mk subs _ => subs.map (fun p => p.1)

/-- Look up a subdirectory by name. -/
def findSub (n : String) : List (String × Dir) → Option Dir
  | [] => none
  | (m, d) :: rest => if m = n then some d else findSub n rest

/-- Resolve a path of directory segments inside a tree. -/
def navigate (d : Dir) : List String → Option Dir
  | [] => some d
  | n :: rest =>
    match d with
    | .mk subs _ =>
      match findSub n subs with
      | some sub => navigate sub rest
      | none => none

mutual

/-- Model of the `os.walk(module_path, topdown=True)` loop of lines 23-25,
including the code's actual pruning behaviour: the statement
`dirs[:] = [d for d in dirs if d not in ["build", "__pycache__"]]` sits
inside the `for file in files` loop, so the subdirectory prune takes effect
iff the visited directory has at least one file.  Yields
`(path segments relative to the walk root, file names)` pairs in walk
order. -/
def walkDir : Dir → List (List String × List String)
  | .mk subs files => ([], files) :: walkSubs (decide (files ≠ [])) subs

/-- Walk the subdirectories; `prune` records whether the parent directory
executed the `dirs[:] = ...` filter (i.e. had at least one file). -/
def walkSubs (prune : Bool) : List (String × Dir) → List (List String × List String)
  | [] => []
  | (n, d) :: rest =>
    (if prune = true ∧ (n = "build" ∨ n = "__pycache__") then []
     else (walkDir d).map (fun e => (n :: e.1, e.2))) ++ walkSubs prune rest

end

/-- The `for file in files` body of lines 24-30 for one walked directory:
each filename ending in `.so` contributes its import-relative dotted name
together with the directory (as walk-root-relative segments) it was found
in. -/
def fileCands (pkg : String) (rel : List String) : List String → List (String × List String)
  | [] => []
  | f :: fs =>
    (if soSuffix f = true then [(relName pkg rel f, rel)] else []) ++ fileCands pkg rel fs

/-- All compiled-artifact candidates produced by the walk, in walk order. -/
def discovered (pkg : String) : List (List String × List String) → List (String × List String)
  | [] => []
  | e :: es => fileCands pkg e.1 e.2 ++ discovered pkg es

/-- One resolved module of the batch result: the externally visible
qualified name (line 33) and the directory containing the artifact
(the walk `root` of line 34). -/
structure ModSpec where
  name : String
  dir : List String
deriving DecidableEq

/-- Lines 31-34: import every candidate dotted name (anchored at the
package stem); the first failure raises, aborting the batch with no partial
result.  On success each candidate yields a `ModSpec` whose name prefixes
the stem onto the relative dotted name. -/
def importAll (o : String → String → Bool) (stem : String) (walkRoot : List String) :
    List (String × List String) → Except String (List ModSpec)
  | [] => Except.ok []
  | (n, rel) :: rest =>
    if o n stem = true then
      match importAll o stem walkRoot rest with
      | Except.ok ms => Except.ok ({ name := stem ++ n, dir := walkRoot ++ rel } :: ms)
      | Except.error e => Except.error e
    else Except.error n

/-- Batch resolution (`list_modules`, lines 8-35) minus the search-path side
effect.  `mp` is the optional module path (as segments), `pkgPath` the
absolute package path (as segments), `parentTree` the directory tree of
`package_path.parent` (the entry appended to the search path), and `o` the
oracle of imports taking `(name, anchor package)` exactly as
`importlib.import_module` does.  The package-level import of line 20
succeeds when the oracle accepts the package identity and the directory
`stem/…module path…` exists under the parent; its location becomes the walk
root. -/
def listModulesE (mp : Option (List String)) (pkgPath : List String) (parentTree : Dir)
    (o : String → String → Bool) : Except String (List ModSpec) :=
  let pkgName := packageNameOf mp
  let stem := pathStem (pkgPath.getLastD "")
  if o pkgName stem = true then
    match navigate parentTree (stem :: mp.getD []) with
    | some pkgDir =>
      importAll o stem (pkgPath.dropLast ++ stem :: mp.getD []) (discovered pkgName (walkDir pkgDir))
    | none => Except.error pkgName
  else Except.error pkgName

/-- The dotted names `list_modules` would try to import, in discovery
order (independent of the oracle). -/
def candidateNames (mp : Option (List String)) (pkgPath : List String) (parentTree : Dir) :
    List String :=
  match navigate parentTree (pathStem (pkgPath.getLastD "") :: mp.getD []) with
  | some pkgDir => (discovered (packageNameOf mp) (walkDir pkgDir)).map Prod.fst
  | none => []

/-- `list_modules` together with its `sys.path` side effect (line 11):
the parent of the absolute package path is appended at the end of the
search path, unconditionally and before any import is attempted, so the
mutation persists even when resolution raises. -/
def listModulesFull (mp : Option (List String)) (pkgPath : List String) (parentTree : Dir)
    (o : String → String → Bool) (sysPath : List (List String)) :
    Except String (List ModSpec) × List (List String) :=
  (listModulesE mp pkgPath parentTree o, sysPath ++ [pkgPath.dropLast])

/-- The `sys.path` update of `get_module` (lines 41-42): insert the package
path at the front only when it is not already the first entry. -/
def getModuleSysPath (path : List String) (sysPath : List (List String)) :
    List (List String) :=
  if sysPath.head? = some path then sysPath else path :: sysPath

/-- Single-mode resolution (`get_module`, lines 37-44): returns the imported
module's reported name (the requested absolute dotted name), the absolute
package path, and the updated search path. -/
def getModule (name : String) (pkgPath : List String) (sysPath : List (List String)) :
    String × List String × List (List String) :=
  (name, pkgPath, getModuleSysPath pkgPath sysPath)

/-- The configuration bundle handed to `pybind11_stubgen` (lines 54-71). -/
structure CLIArgs where
  module_name : String
  output_dir : String
  stub_extension : String
  root_suffix : Option String
  ignore_all_errors : Bool
  ignore_invalid_identifiers : Option String
  ignore_invalid_expressions : Option String
  ignore_unresolved_names : Option String
  exit_code : Bool
  numpy_array_wrap_with_annotated : Bool
  numpy_array_use_type_var : Bool
  numpy_array_remove_parameters : Bool
  enum_class_locations : List String
  print_safe_value_reprs : Option String
  print_invalid_expressions_as_is : Bool
  dry_run : Bool
deriving DecidableEq

/-- The exact `CLIArgs(...)` construction in `stub` (lines 54-71): only the
module name and the output directory vary with the caller; every other
field is statically fixed. -/
def stubArgs (module_name module_path : String) : CLIArgs :=
  { module_name := module_name
    output_dir := module_path
    stub_extension := "pyi"
    root_suffix := none
    ignore_all_errors := false
    ignore_invalid_identifiers := none
    ignore_invalid_expressions := none
    ignore_unresolved_names := none
    exit_code := false
    numpy_array_wrap_with_annotated := false
    numpy_array_use_type_var := false
    numpy_array_remove_parameters := false
    enum_class_locations := []
    print_safe_value_reprs := none
    print_invalid_expressions_as_is := false
    dry_run := false }

/-- One invocation of `stub(module_name, module_path)` as issued by the
module-level driver: which qualified name is stubbed and into which output
directory. -/
structure StubCall where
  moduleName : String
  outputDir : List String
deriving DecidableEq

/-- The batch branch of the driver (lines 109-113): every resolved module is
stubbed with `str(root.parent)` as the output directory; the containing
directory recorded in the `ModSpec` is ignored for output. -/
def mainBatchCalls (mp : Option (List String)) (root : List String) (parentTree : Dir)
    (o : String → String → Bool) : Except String (List StubCall) :=
  (listModulesE mp root parentTree o).map
    (fun ms => ms.map (fun s => { moduleName := s.name, outputDir := root.dropLast }))

/-- The single branch of the driver (lines 114-116): the one module returned
by `get_module` is stubbed with the returned `_module_path` — the absolute
`--root` path — as the output directory. -/
def mainSingleCall (p : String) (root : List String) (sysPath : List (List String)) : StubCall :=
  let r := getModule p root sysPath
  { moduleName := r.1, outputDir := r.2.1 }

instance {ε α : Type} [DecidableEq ε] [DecidableEq α] : DecidableEq (Except ε α) :=
  fun a b =>
    match a, b with
    | Except.ok x, Except.ok y =>
      if h : x = y then Decidable.isTrue (congrArg Except.ok h)
      else Decidable.isFalse (fun hh => h (Except.ok.inj hh))
    | Except.ok _, Except.error _ => Decidable.isFalse (fun hh => Except.noConfusion hh)
    | Except.error _, Except.ok _ => Decidable.isFalse (fun hh => Except.noConfusion hh)
    | Except.error x, Except.error y =>
      if h : x = y then Decidable.isTrue (congrArg Except.error h)
      else Decidable.isFalse (fun hh => h (Except.error.inj hh))

/-- Whether an `Except` result is a success. -/
def isOkB : Except String (List ModSpec) → Bool
  | Except.ok _ => true
  | Except.error _ => false

/-- The qualified names a resolution yields, or `none` when it raises. -/
def namesOf : Except String (List ModSpec) → Option (List String)
  | Except.ok l => some (l.map (fun s => s.name))
  | Except.error _ => none

/-- The `native` package subtree of the end-to-end scenario. -/
def nativeTree : Dir :=
  Dir.mk [("sub", Dir.mk [] ["ext.cpython-311.so"])] ["core.cpython-311.so"]

/-- The on-disk package `mypkg` of the end-to-end scenario: exactly the two
compiled artifacts `native/core.cpython-311.so` and
`native/sub/ext.cpython-311.so`. -/
def mypkgTree : Dir :=
  Dir.mk [("native", nativeTree)] []

/-- The directory `/pkg` containing the on-disk package `mypkg`. -/
def pkgParentTree : Dir :=
  Dir.mk [("mypkg", mypkgTree)] []

/-- A parent directory for the stem-versus-name scenario: it contains both
a package directory `mypkg` and the directory `mypkg.v2` that the `--root`
argument points at. -/
def v2ParentTree : Dir :=
  Dir.mk [("mypkg", mypkgTree), ("mypkg.v2", Dir.mk [] [])] []

/-- A package directory holding a compiled artifact `top.so` directly at
its root next to the top-level package `inner`. -/
def strayTree : Dir :=
  Dir.mk [("inner", Dir.mk [] ["core.so"])] ["top.so"]

/-- A parent directory for the stray-artifact scenario. -/
def strayParent : Dir :=
  Dir.mk [("mypkg", strayTree)] []

/-- An import oracle that refuses exactly the dotted name `.native.core`. -/
def failCoreOracle (n : String) (_anchor : String) : Bool :=
  !(n == ".native.core")

/-- Character-level string-prefix test (used to state which package name
prefixes the returned qualified names). -/
def hasPre (p s : String) : Bool :=
  decide (s.data.take p.data.length = p.data)

/-- Splitting at a separator and taking the first field is exactly
`takeWhile (· ≠ sep)`. -/
theorem pySplit_headD (sep : Char) (cs : List Char) :
    (pySplit sep cs).headD [] = cs.takeWhile (fun c => !(c == sep)) := by
  induction cs with
  | nil => rfl
  | cons c rest ih =>
    by_cases h : c = sep
    · simp [pySplit, h, List.takeWhile]
    · have hb : (c == sep) = false := by simp [h]
      simp [pySplit, h, List.takeWhile, hb]
      simpa using ih

/-- If a dotted name in a candidate list fails to import, `importAll`
raises that name (or an earlier failing one): the batch result is an error
whose payload itself fails the oracle, and no list is returned. -/
theorem importAll_err_of_mem (o : String → String → Bool) (stem : String)
    (wr : List String) (l : List (String × List String)) (c : String)
    (hc : c ∈ l.map Prod.fst) (hf : o c stem = false) :
    ∃ e, importAll o stem wr l = Except.error e ∧ o e stem = false := by
  induction l with
  | nil => simp at hc
  | cons p rest ih =>
    obtain ⟨n, rel⟩ := p
    simp only [List.map_cons, List.mem_cons] at hc
    by_cases hn : o n stem = true
    · cases hc with
      | inl he => subst he; rw [hn] at hf; cases hf
      | inr hm =>
        obtain ⟨e, he, hfe⟩ := ih hm
        refine ⟨e, ?_, hfe⟩
        unfold importAll
        rw [if_pos hn, he]
    · refine ⟨n, ?_, by simpa using hn⟩
      unfold importAll
      rw [if_neg hn]

/-- C1: the claim that no compiled artifact beneath a directory named
`build` (or `__pycache__`) ever appears in the batch result, because such
directories are pruned before descent, is violated by the code: the
`dirs[:] = ...` prune statement sits inside the `for file in files` loop,
so a walked directory that contains no regular files never prunes its
subdirectories.  Here the package directory holds only a `build`
subdirectory with artifact `x.so`, and resolution returns the module
`pkg.build.x` found beneath `build`. -/
theorem c1_build_not_pruned :
    listModulesE none ["root", "pkg"]
      (Dir.mk [("pkg", Dir.mk [("build", Dir.mk [] ["x.so"])] [])] []) (fun _ _ => true) =
      Except.ok [{ name := "pkg.build.x", dir := ["root", "pkg", "build"] }] := by
  decide

/-- C2: for the package root `/pkg/mypkg` whose on-disk package `mypkg`
contains exactly the artifacts `native/core.cpython-311.so` and
`native/sub/ext.cpython-311.so`, batch resolution with no module path
returns exactly the qualified names `mypkg.native.core` and
`mypkg.native.sub.ext`, each paired with the directory containing its
artifact. -/
theorem c2_end_to_end :
    listModulesE none ["pkg", "mypkg"] pkgParentTree (fun _ _ => true) =
      Except.ok [{ name := "mypkg.native.core", dir := ["pkg", "mypkg", "native"] },
                 { name := "mypkg.native.sub.ext", dir := ["pkg", "mypkg", "native", "sub"] }] := by
  decide

/-- C4, counterexample: the claim says the parent of `package_path` is
inserted at the *front* of the search path.  At a concrete state (search
path `[["existing"]]`, package path `/pkg/mypkg`, parent `["pkg"]`) the
search path after batch resolution is not the front-insertion result. -/
theorem c4_counterexample :
    ¬ (listModulesFull none ["pkg", "mypkg"] pkgParentTree (fun _ _ => true)
        [["existing"]]).2 = [["pkg"], ["existing"]] := by
  decide

/-- C4, amended: for every call to batch resolution, the parent directory
of `package_path` is appended at the *end* of the import search path
(`sys.path.append`, line 11), and the mutation is never reverted — it is in
place in the final state even when resolution fails, since the append
precedes every import. -/
theorem c4_appended_at_end (mp : Option (List String)) (pkgPath : List String)
    (parentTree : Dir) (o : String → String → Bool) (sysPath : List (List String)) :
    (listModulesFull mp pkgPath parentTree o sysPath).2 = sysPath ++ [pkgPath.dropLast] :=
  rfl

/-- C6: single-mode resolution is idempotent with respect to the
search-path mutation: on any non-empty search path, a second invocation
with the same `package_path` leaves the path unchanged, and when the path
was not already the first entry, the two invocations together perform
exactly one front insertion. -/
theorem c6_idempotent (path : List String) (sysPath : List (List String))
    (h : sysPath ≠ []) :
    getModuleSysPath path (getModuleSysPath path sysPath) = getModuleSysPath path sysPath ∧
    (sysPath.head? ≠ some path →
      getModuleSysPath path (getModuleSysPath path sysPath) = path :: sysPath) := by
  constructor
  · by_cases hh : sysPath.head? = some path
    · simp [getModuleSysPath, hh]
    · simp [getModuleSysPath, hh]
  · intro hh
    simp [getModuleSysPath, hh]

/-- Witness for C6 at a concrete state. -/
theorem c6_witness :
    getModuleSysPath ["P"] (getModuleSysPath ["P"] [["A"]]) = getModuleSysPath ["P"] [["A"]] ∧
    (([["A"]] : List (List String)).head? ≠ some ["P"] →
      getModuleSysPath ["P"] (getModuleSysPath ["P"] [["A"]]) = ["P"] :: [["A"]]) :=
  c6_idempotent ["P"] [["A"]] (by decide)

/-- C9: for every invocation of the stub emitter, the request bundle built
for the external stub generator has all leniency flags disabled, dry-run
disabled, the stub extension fixed to `pyi`, and the custom exit-code
option disabled, whatever the module name and output directory are. -/
theorem c9_fixed_config (m p : String) :
    (stubArgs m p).ignore_all_errors = false ∧
    (stubArgs m p).ignore_invalid_identifiers = none ∧
    (stubArgs m p).ignore_invalid_expressions = none ∧
    (stubArgs m p).ignore_unresolved_names = none ∧
    (stubArgs m p).dry_run = false ∧
    (stubArgs m p).stub_extension = "pyi" ∧
    (stubArgs m p).exit_code = false :=
  ⟨rfl, rfl, rfl, rfl, rfl, rfl, rfl⟩

/-- C10: the output root handed to the stub emitter differs by mode — in
batch mode every emission receives the parent of the `--root` path (the
containing directory recorded in the `ModSpec` is ignored), while in single
mode the emission receives the absolute `--root` path itself. -/
theorem c10_output_roots (mp : Option (List String)) (root : List String) (parentTree : Dir)
    (o : String → String → Bool) (calls : List StubCall) (q : String)
    (sysPath : List (List String))
    (h : mainBatchCalls mp root parentTree o = Except.ok calls) :
    calls.all (fun c => decide (c.outputDir = root.dropLast)) = true ∧
    (mainSingleCall q root sysPath).outputDir = root := by
  constructor
  · unfold mainBatchCalls at h
    cases hE : listModulesE mp root parentTree o with
    | ok ms =>
      rw [hE] at h
      simp only [Except.map] at h
      cases h
      simp [List.all_map]
    | error e =>
      rw [hE] at h
      simp [Except.map] at h
  · rfl

/-- C3: for every compiled-artifact filename processed in batch
resolution, the derived module basename (`file.split('.')[0]`) equals
exactly the substring of the filename before its first `.`, however many
dotted extension segments follow. -/
theorem c3_basename (f : String) (h : soSuffix f = true) :
    soBase f = beforeFirstDot f := by
  unfold soBase beforeFirstDot
  rw [pySplit_headD]

/-- Witness for C3 on a multi-segment artifact filename. -/
theorem c3_witness :
    soSuffix "foo.cpython-311-x86_64-linux-gnu.so" = true ∧
    soBase "foo.cpython-311-x86_64-linux-gnu.so" =
      beforeFirstDot "foo.cpython-311-x86_64-linux-gnu.so" :=
  ⟨by decide, c3_basename "foo.cpython-311-x86_64-linux-gnu.so" (by decide)⟩

/-- C5: if any discovered candidate's dotted name fails to import, the
whole batch resolution raises a failing import (an `Except.error` whose
payload the oracle rejects) and returns no result at all — no partial list
of previously resolved modules is produced and no skip-and-continue
occurs. -/
theorem c5_import_failure_aborts (mp : Option (List String)) (pkgPath : List String)
    (parentTree : Dir) (o : String → String → Bool) (c : String)
    (hc : c ∈ candidateNames mp pkgPath parentTree)
    (hf : o c (pathStem (pkgPath.getLastD "")) = false) :
    ∃ e, listModulesE mp pkgPath parentTree o = Except.error e ∧
      o e (pathStem (pkgPath.getLastD "")) = false := by
  unfold listModulesE
  by_cases hp : o (packageNameOf mp) (pathStem (pkgPath.getLastD "")) = true
  · rw [if_pos hp]
    unfold candidateNames at hc
    cases hN : navigate parentTree (pathStem (pkgPath.getLastD "") :: mp.getD []) with
    | some pkgDir =>
      rw [hN] at hc
      exact importAll_err_of_mem o _ _ _ c hc hf
    | none =>
      rw [hN] at hc
      simp at hc
  · rw [if_neg hp]
    exact ⟨packageNameOf mp, rfl, by simpa using hp⟩

/-- Witness for C5: the oracle refusing `.native.core` makes the whole
batch for the end-to-end package error out. -/
theorem c5_witness :
    ∃ e, listModulesE none ["pkg", "mypkg"] pkgParentTree failCoreOracle = Except.error e ∧
      failCoreOracle e (pathStem ((["pkg", "mypkg"] : List String).getLastD "")) = false :=
  c5_import_failure_aborts none ["pkg", "mypkg"] pkgParentTree failCoreOracle
    ".native.core" (by decide) (by decide)

/-- Every module returned by `importAll` has the anchor stem as a name
prefix, since line 33 builds the name as `f"{stem}{module_name}"`. -/
theorem importAll_names (o : String → String → Bool) (stem : String) (wr : List String)
    (l : List (String × List String)) (ms : List ModSpec)
    (h : importAll o stem wr l = Except.ok ms) :
    ms.all (fun s => hasPre stem s.name) = true := by
  induction l generalizing ms with
  | nil =>
    cases h
    rfl
  | cons p rest ih =>
    obtain ⟨n, rel⟩ := p
    unfold importAll at h
    by_cases hn : o n stem = true
    · rw [if_pos hn] at h
      cases hI : importAll o stem wr rest with
      | ok ms2 =>
        rw [hI] at h
        cases h
        have hpre : hasPre stem (stem ++ n) = true := by
          unfold hasPre
          rw [show (stem ++ n).data = stem.data ++ n.data from rfl, List.take_left]
          simp
        simp [List.all_cons, hpre, ih ms2 hI]
      | error e =>
        rw [hI] at h
        cases h
    · rw [if_neg hn] at h
      cases h

/-- C8, counterexample: the claim says the package name used as prefix
(and anchor) is the last path segment of `package_path`.  With
`package_path = /pkg/mypkg.v2` the code uses `pathlib`'s `stem`, which
strips the `.v2` suffix: the walk imports and prefixes `mypkg`, and no
returned name is prefixed by the last segment `mypkg.v2`. -/
theorem c8_counterexample :
    listModulesE none ["pkg", "mypkg.v2"] v2ParentTree (fun _ _ => true) =
      Except.ok [{ name := "mypkg.native.core", dir := ["pkg", "mypkg", "native"] },
                 { name := "mypkg.native.sub.ext", dir := ["pkg", "mypkg", "native", "sub"] }] ∧
    ¬ hasPre "mypkg.v2" "mypkg.native.core" = true := by
  decide

/-- C8, amended: the package name used in batch resolution as the prefix of
every returned qualified name (and as the import anchor) is
`pathlib.PurePath.stem` of `package_path` — the last path segment with its
final dotted suffix removed, which coincides with the last segment exactly
when that segment has no interior dot. -/
theorem c8_stem_prefixes (mp : Option (List String)) (pkgPath : List String)
    (parentTree : Dir) (o : String → String → Bool) (ms : List ModSpec)
    (h : listModulesE mp pkgPath parentTree o = Except.ok ms) :
    ms.all (fun s => hasPre (pathStem (pkgPath.getLastD "")) s.name) = true := by
  unfold listModulesE at h
  by_cases hp : o (packageNameOf mp) (pathStem (pkgPath.getLastD "")) = true
  · rw [if_pos hp] at h
    cases hN : navigate parentTree (pathStem (pkgPath.getLastD "") :: mp.getD []) with
    | some pkgDir =>
      rw [hN] at h
      exact importAll_names _ _ _ _ _ h
    | none =>
      rw [hN] at h
      cases h
  · rw [if_neg hp] at h
    cases h

/-- Witness for C8's amended statement at the `mypkg.v2` scenario. -/
theorem c8_witness :
    ([{ name := "mypkg.native.core", dir := ["pkg", "mypkg", "native"] },
      { name := "mypkg.native.sub.ext", dir := ["pkg", "mypkg", "native", "sub"] }] :
        List ModSpec).all
      (fun s => hasPre (pathStem ((["pkg", "mypkg.v2"] : List String).getLastD "")) s.name) =
      true :=
  c8_stem_prefixes none ["pkg", "mypkg.v2"] v2ParentTree (fun _ _ => true) _ (by decide)

/-- Witness for C10 at the end-to-end scenario. -/
theorem c10_witness :
    ([{ moduleName := "mypkg.native.core", outputDir := ["pkg"] },
      { moduleName := "mypkg.native.sub.ext", outputDir := ["pkg"] }] : List StubCall).all
        (fun c => decide (c.outputDir = (["pkg", "mypkg"] : List String).dropLast)) = true ∧
    (mainSingleCall "mypkg.native.core" ["pkg", "mypkg"] [["x"]]).outputDir = ["pkg", "mypkg"] :=
  c10_output_roots none ["pkg", "mypkg"] pkgParentTree (fun _ _ => true) _
    "mypkg.native.core" [["x"]] (by decide)

/-- A character absent from a list is never found by `rfindIdx`. -/
theorem rfindIdx_eq_none (c : Char) (cs : List Char) (h : c ∉ cs) :
    rfindIdx c cs = none := by
  induction cs with
  | nil => rfl
  | cons x xs ih =>
    simp only [List.mem_cons, not_or] at h
    unfold rfindIdx
    rw [ih h.2, if_neg (fun hx => h.1 hx.symm)]

/-- A found index is inside the list. -/
theorem rfindIdx_lt_length (c : Char) (cs : List Char) (i : Nat)
    (h : rfindIdx c cs = some i) : i < cs.length := by
  induction cs generalizing i with
  | nil => cases h
  | cons x xs ih =>
    unfold rfindIdx at h
    cases hr : rfindIdx c xs with
    | some j =>
      rw [hr] at h
      cases h
      have := ih j hr
      simp only [List.length_cons]
      omega
    | none =>
      rw [hr] at h
      by_cases hx : x = c
      · rw [if_pos hx] at h
        cases h
        simp
      · rw [if_neg hx] at h
        cases h

/-- Unfolding equation for `rfindIdx` on a cons cell. -/
theorem rfindIdx_cons (c x : Char) (xs : List Char) :
    rfindIdx c (x :: xs) =
      (match rfindIdx c xs with
        | some i => some (i + 1)
        | none => if x = c then some 0 else none) :=
  rfl

/-- Last-occurrence search distributes over append: a hit in the right part
wins, shifted by the left part's length. -/
theorem rfindIdx_append (c : Char) (xs ys : List Char) :
    rfindIdx c (xs ++ ys) =
      (match rfindIdx c ys with
        | some i => some (xs.length + i)
        | none => rfindIdx c xs) := by
  induction xs with
  | nil =>
    simp only [List.nil_append, List.length_nil]
    cases rfindIdx c ys <;> simp [rfindIdx]
  | cons x xs ih =>
    simp only [List.cons_append, List.length_cons]
    rw [rfindIdx_cons c x (xs ++ ys), ih]
    cases hr : rfindIdx c ys with
    | some i =>
      show some (xs.length + i + 1) = some (xs.length + 1 + i)
      congr 1
      omega
    | none =>
      rw [rfindIdx_cons c x xs]

/-- Unfolding of `joinSepL` on a cons with a non-empty tail. -/
theorem joinSepL_cons_ne (sep : Char) (x : List Char) (segs : List (List Char))
    (h : segs ≠ []) : joinSepL sep (x :: segs) = x ++ sep :: joinSepL sep segs := by
  cases segs with
  | nil => cases h rfl
  | cons y ys => rfl

/-- Appending one final segment to a non-empty join. -/
theorem joinSepL_append_single (sep : Char) (segs : List (List Char)) (b : List Char)
    (h : segs ≠ []) :
    joinSepL sep (segs ++ [b]) = joinSepL sep segs ++ sep :: b := by
  induction segs with
  | nil => cases h rfl
  | cons s ss ih =>
    cases ss with
    | nil => rfl
    | cons s2 ss2 =>
      rw [List.cons_append, joinSepL_cons_ne sep s ((s2 :: ss2) ++ [b]) (by simp),
          joinSepL_cons_ne sep s (s2 :: ss2) (by simp), ih (by simp)]
      simp [List.append_assoc]

/-- Rendering relative segments whose final segment is non-empty. -/
theorem relPathL_of_ne (relDirs : List (List Char)) (base : List Char)
    (hb : base ≠ []) :
    relPathL relDirs base = joinSepL '/' (relDirs ++ [base]) := by
  have h1 : base.isEmpty = false := by
    cases base with
    | nil => cases hb rfl
    | cons => rfl
  have h2 : (relDirs ++ [base]).isEmpty = false := by
    cases relDirs <;> rfl
  simp [relPathL, h1, h2]

/-- When the final path component is non-empty and dot-free, `splitext`
strips nothing: the last dot of the whole path (if any) lies before the
last separator. -/
theorem splitext_id_of_clean_last (segs : List (List Char)) (b : List Char)
    (hb : b ≠ []) (hd : '.' ∉ b) :
    splitextFstL (joinSepL '/' (segs ++ [b])) = joinSepL '/' (segs ++ [b]) := by
  cases segs with
  | nil =>
    have hjb : joinSepL '/' ([] ++ [b]) = b := rfl
    rw [hjb]
    unfold splitextFstL
    rw [rfindIdx_eq_none '.' b hd]
  | cons s ss =>
    rw [joinSepL_append_single '/' (s :: ss) b (by simp)]
    have hdotside : rfindIdx '.' ('/' :: b) = none := by
      unfold rfindIdx
      rw [rfindIdx_eq_none '.' b hd]
      simp
    have hdot : rfindIdx '.' (joinSepL '/' (s :: ss) ++ '/' :: b) =
        rfindIdx '.' (joinSepL '/' (s :: ss)) := by
      rw [rfindIdx_append, hdotside]
    obtain ⟨j, hj⟩ : ∃ j, rfindIdx '/' ('/' :: b) = some j := by
      unfold rfindIdx
      cases rfindIdx '/' b <;> simp
    have hsep : rfindIdx '/' (joinSepL '/' (s :: ss) ++ '/' :: b) =
        some ((joinSepL '/' (s :: ss)).length + j) := by
      rw [rfindIdx_append, hj]
    have hfi : sepBase (joinSepL '/' (s :: ss) ++ '/' :: b) =
        (joinSepL '/' (s :: ss)).length + j + 1 := by
      unfold sepBase
      rw [hsep]
    unfold splitextFstL
    rw [hdot]
    split
    next => rfl
    next di hdA =>
      have hlt : di < (joinSepL '/' (s :: ss)).length :=
        rfindIdx_lt_length '.' _ di hdA
      rw [hfi, if_neg (by omega)]

/-- Replacing separators in a list starting with one. -/
theorem dotRepL_cons_slash (rest : List Char) :
    dotRepL ('/' :: rest) = '.' :: dotRepL rest := by
  simp [dotRepL]

/-- `dotRepL` distributes over append. -/
theorem dotRepL_append (a b : List Char) :
    dotRepL (a ++ b) = dotRepL a ++ dotRepL b := by
  simp [dotRepL]

/-- A separator-free list is unchanged by `dotRepL`. -/
theorem dotRepL_id (a : List Char) (h : '/' ∉ a) : dotRepL a = a := by
  induction a with
  | nil => rfl
  | cons x xs ih =>
    simp only [List.mem_cons, not_or] at h
    unfold dotRepL
    simp only [List.map_cons]
    rw [if_neg (fun hx => h.1 hx.symm)]
    have := ih h.2
    unfold dotRepL at this
    rw [this]

/-- Moving the leading directory of the relative path into the package
identity leaves the derived relative dotted module name unchanged, for any
artifact whose basename (before the first dot) is non-empty.  This is the
character-level heart of the self-marker composition law. -/
theorem relNameL_shift (m : List Char) (hm : m ≠ []) (hms : '/' ∉ m)
    (relDirs : List (List Char)) (fname : List Char)
    (hb : (pySplit '.' fname).headD [] ≠ []) :
    relNameL ['.'] (m :: relDirs) fname = relNameL ('.' :: m) relDirs fname := by
  have hdot : '.' ∉ (pySplit '.' fname).headD [] := by
    rw [pySplit_headD]
    intro hmem
    have := List.mem_takeWhile_imp hmem
    simp at this
  unfold relNameL
  rw [if_pos rfl, if_neg (fun hx => hm (List.cons.inj hx).2)]
  rw [relPathL_of_ne (m :: relDirs) _ hb, relPathL_of_ne relDirs _ hb]
  rw [splitext_id_of_clean_last (m :: relDirs) _ hb hdot,
      splitext_id_of_clean_last relDirs _ hb hdot]
  rw [show (m :: relDirs) ++ [(pySplit '.' fname).headD []] =
        m :: (relDirs ++ [(pySplit '.' fname).headD []]) from rfl]
  rw [joinSepL_cons_ne '/' m _ (by simp)]
  rw [dotRepL_append, dotRepL_cons_slash, dotRepL_id m hms]
  simp

/-- String-level version of `relNameL_shift`: prefixing the package
identity with the leading directory produces the same relative dotted name
as keeping that directory in the relative path. -/
theorem relName_shift (m : String) (hm : m ≠ "") (hms : '/' ∉ m.data)
    (relDirs : List String) (f : String) (hb : soBase f ≠ "") :
    relName "." (m :: relDirs) f = relName (String.mk ('.' :: m.data)) relDirs f := by
  have hb' : (pySplit '.' f.data).headD [] ≠ [] := by
    intro hne
    apply hb
    unfold soBase
    rw [hne]
  have hmd : m.data ≠ [] := by
    intro hnil
    apply hm
    cases m with
    | mk l =>
      simp only at hnil
      rw [hnil]
  unfold relName
  simp only [List.map_cons]
  congr 1
  exact relNameL_shift m.data hmd hms (relDirs.map (fun s => s.data)) f.data hb'

/-- Per-file candidate lists shift the same way, provided every artifact in
the file list has a non-empty basename. -/
theorem fileCands_shift (m : String) (hm : m ≠ "") (hms : '/' ∉ m.data)
    (rel : List String) (fs : List String)
    (H : ∀ f ∈ fs, soSuffix f = true → soBase f ≠ "") :
    fileCands "." (m :: rel) fs =
      (fileCands (String.mk ('.' :: m.data)) rel fs).map (fun p => (p.1, m :: p.2)) := by
  induction fs with
  | nil => rfl
  | cons f fs ih =>
    have Hf := H f (List.mem_cons_self f fs)
    have Hrest : ∀ g ∈ fs, soSuffix g = true → soBase g ≠ "" :=
      fun g hg => H g (List.mem_cons_of_mem f hg)
    unfold fileCands
    rw [List.map_append]
    by_cases hs : soSuffix f = true
    · rw [if_pos hs, if_pos hs, ih Hrest]
      simp [relName_shift m hm hms rel f (Hf hs)]
    · rw [if_neg hs, if_neg hs, ih Hrest]
      rfl

/-- Walk entries whose relative directories all gained a leading segment
produce the same candidates as relocating that segment into the package
identity, provided every artifact has a non-empty basename. -/
theorem discovered_shift (m : String) (hm : m ≠ "") (hms : '/' ∉ m.data)
    (l : List (List String × List String))
    (H : ∀ e ∈ l, ∀ f ∈ e.2, soSuffix f = true → soBase f ≠ "") :
    discovered "." (l.map (fun e => (m :: e.1, e.2))) =
      (discovered (String.mk ('.' :: m.data)) l).map (fun p => (p.1, m :: p.2)) := by
  induction l with
  | nil => rfl
  | cons e es ih =>
    have He := H e (List.mem_cons_self e es)
    have Hrest : ∀ e2 ∈ es, ∀ f ∈ e2.2, soSuffix f = true → soBase f ≠ "" :=
      fun e2 he2 => H e2 (List.mem_cons_of_mem e he2)
    simp only [List.map_cons]
    unfold discovered
    rw [List.map_append, fileCands_shift m hm hms e.1 e.2 He, ih Hrest]

/-- Prepending a segment to every candidate's relative directory is the
same as moving that segment into the walk root. -/
theorem importAll_shift (o : String → String → Bool) (stem : String)
    (pre : List String) (m : String) (l : List (String × List String)) :
    importAll o stem pre (l.map (fun p => (p.1, m :: p.2))) =
      importAll o stem (pre ++ [m]) l := by
  induction l with
  | nil => rfl
  | cons p rest ih =>
    obtain ⟨n, rel⟩ := p
    simp only [List.map_cons]
    unfold importAll
    rw [ih]
    by_cases hn : o n stem = true
    · rw [if_pos hn, if_pos hn]
      cases importAll o stem (pre ++ [m]) rest with
      | ok ms => simp [List.append_assoc]
      | error e => rfl
    · rw [if_neg hn, if_neg hn]

/-- Navigation along a cons of segments factors through the first
segment. -/
theorem navigate_cons_of (t : Dir) (x : String) (xs : List String) :
    navigate t (x :: xs) = (navigate t [x]).bind (fun d => navigate d xs) := by
  cases t with
  | mk subs files =>
    show (match findSub x subs with
          | some sub => navigate sub xs
          | none => none) =
        ((match findSub x subs with
          | some sub => navigate sub []
          | none => none).bind (fun d => navigate d xs))
    cases findSub x subs with
    | some sub => rfl
    | none => rfl

/-- The package identity of a one-segment module path. -/
theorem packageNameOf_single (m : String) :
    packageNameOf (some [m]) = String.mk ('.' :: m.data) :=
  rfl

/-- C7, counterexample: the claim says resolution with no module path and
resolution with the module path naming the top-level package always yield
the same qualified names for the same directory contents.  With a compiled
artifact `top.so` sitting directly in the package root next to the
top-level package `inner`, the no-module-path run also returns `mypkg.top`
while the explicit run returns only `mypkg.inner.core`. -/
theorem c7_counterexample :
    ¬ namesOf (listModulesE none ["pkg", "mypkg"] strayParent (fun _ _ => true)) =
      namesOf (listModulesE (some ["inner"]) ["pkg", "mypkg"] strayParent
        (fun _ _ => true)) := by
  decide

/-- C7, amended: when the root package directory contains exactly its
top-level package `m` (no files and no sibling entries) and every compiled
artifact has a non-empty basename before its first dot, batch resolution
with no module path and batch resolution with the module path `[m]` produce
identical results — in particular the same absolute qualified names —
whenever both package-level imports are accepted by the oracle. -/
theorem c7_self_marker (pkgPath : List String) (parentTree : Dir) (m : String) (sub : Dir)
    (o : String → String → Bool)
    (hm : m ≠ "") (hms : '/' ∉ m.data)
    (hnav : navigate parentTree [pathStem (pkgPath.getLastD "")] =
      some (Dir.mk [(m, sub)] []))
    (hfiles : ∀ e ∈ walkDir sub, ∀ f ∈ e.2, soSuffix f = true → soBase f ≠ "")
    (hA : o "." (pathStem (pkgPath.getLastD "")) = true)
    (hB : o (String.mk ('.' :: m.data)) (pathStem (pkgPath.getLastD "")) = true) :
    listModulesE none pkgPath parentTree o = listModulesE (some [m]) pkgPath parentTree o := by
  have hnav2 : navigate (Dir.mk [(m, sub)] []) [m] = some sub := by
    show (match findSub m [(m, sub)] with
          | some s2 => navigate s2 []
          | none => none) = some sub
    rw [show findSub m [(m, sub)] = some sub from by unfold findSub; rw [if_pos rfl]]
    rfl
  unfold listModulesE
  rw [show packageNameOf none = "." from rfl, packageNameOf_single]
  simp only [Option.getD_none, Option.getD_some]
  rw [if_pos hA, if_pos hB]
  rw [hnav, navigate_cons_of parentTree _ [m], hnav]
  simp only [Option.some_bind]
  rw [hnav2]
  have hw : walkDir (Dir.mk [(m, sub)] []) =
      ([], []) :: ((walkDir sub).map (fun e => (m :: e.1, e.2)) ++ []) := rfl
  rw [hw, List.append_nil]
  rw [show discovered "." ((([], ([] : List String))) ::
        (walkDir sub).map (fun e => (m :: e.1, e.2))) =
      discovered "." ((walkDir sub).map (fun e => (m :: e.1, e.2))) from rfl]
  rw [discovered_shift m hm hms (walkDir sub) hfiles, importAll_shift]
  simp [List.append_assoc]

/-- Witness for C7's amended statement: on the end-to-end package, the
no-module-path run and the explicit `native` run coincide. -/
theorem c7_witness :
    listModulesE none ["pkg", "mypkg"] pkgParentTree (fun _ _ => true) =
      listModulesE (some ["native"]) ["pkg", "mypkg"] pkgParentTree (fun _ _ => true) :=
  c7_self_marker ["pkg", "mypkg"] pkgParentTree "native" nativeTree (fun _ _ => true)
    (by decide) (by decide) rfl (by decide) rfl rfl
